import Mathlib

/-!
Verification development for the tool-hub retrieval-and-dispatch engine
(source: src/evaluator/algorithms/tool_fetcher_algorithm.py).

The Python source is shallowly embedded below.  Strings are modelled over
their character lists (Python length and slicing count code points, as does
the Lean model).  Python str.lower and str.strip are modelled over the
ASCII range (Char.toLower and Char.isWhitespace), which is faithful for all
tool names, actions and messages the engine handles.  External
collaborators (the Milvus vector store, the embedding model, json parsing
of tool_input, usage logging, the agent loop) are modelled as opaque
capabilities, exactly as the specification scopes them out.
-/

namespace ToolFetcher

/-- Model of Python str.strip: drop leading and trailing whitespace. -/
def pyStrip (s : String) : String :=
  String.mk (((s.data.dropWhile Char.isWhitespace).reverse.dropWhile Char.isWhitespace).reverse)

/-- Model of Python str.lower over the ASCII range. -/
def pyLower (s : String) : String :=
  String.mk (s.data.map Char.toLower)

/-- Normalization used by the dispatcher and the scorer:
(x or "").strip().lower() in the source. -/
def pyNorm (s : String) : String := pyLower (pyStrip s)

/-- Model of Python substring containment (needle in haystack). -/
def isSubstringOf (needle haystack : String) : Bool :=
  (List.range (haystack.data.length + 1)).any
    (fun i => needle.data.isPrefixOf (haystack.data.drop i))

/-- Python len over code points. -/
def strLen (s : String) : Nat := s.data.length

/-- First n characters of a string. -/
def strTake (s : String) (n : Nat) : String := String.mk (s.data.take n)

/-- Model of the Python slice s[:n] for an integer n: a nonnegative bound
takes the first n characters; a negative bound drops the last -n. -/
def pySliceTo (s : String) (n : Int) : String :=
  if 0 ≤ n then strTake s n.toNat else strTake s ((strLen s : Int) + n).toNat

/-- A tool descriptor: name, description, and an opaque invocation
capability.  The capability returns the stringified result (the source
applies json.dumps to dict or list results and str to the rest before any
truncation; that stringification is folded into the capability) or the
message of the exception it raised. -/
structure Tool where
  name : String
  description : String
  invoke : String → Except String String

-- Constants from the source.
def nameMatchWeight : Nat := 2
def descMatchWeight : Nat := 1
def minK : Int := 1
def maxK : Int := 50
def defaultSearchKConst : Int := 8
def defaultMaxResultChars : Int := 4000

/-- Substring score of one tool against a normalized query, lines 123-125
of the source. -/
def scoreTool (q : String) (t : Tool) : Nat :=
  (if isSubstringOf q (pyLower t.name) then nameMatchWeight else 0) +
  (if isSubstringOf q (pyLower t.description) then descMatchWeight else 0)

/-- The ranked accumulation loop, lines 121-127: keep (score, tool) pairs
with positive score, in registry order. -/
def scoredTools (tools : List Tool) (q : String) : List (Nat × Tool) :=
  tools.filterMap (fun t =>
    if 0 < scoreTool q t then some (scoreTool q t, t) else none)

/-- Insertion step of a stable sort by score descending: an element passes
only strictly greater scores, so earlier elements stay ahead on ties. -/
def insertDesc (x : Nat × Tool) : List (Nat × Tool) → List (Nat × Tool)
  | [] => [x]
  | y :: ys => if x.1 < y.1 then y :: insertDesc x ys else x :: y :: ys

/-- Model of ranked.sort(key=score, reverse=True), line 129.  Python
list.sort is stable and reverse=True preserves stability, so its output is
determined: equal-score entries keep their original relative order.  The
insertion sort below computes exactly that output (proved by the partition
characterization further down). -/
def sortDesc (l : List (Nat × Tool)) : List (Nat × Tool) := l.foldr insertDesc []

/-- The sorted ranked list of the substring fallback, lines 120-129. -/
def substrRanked (tools : List Tool) (query : String) : List (Nat × Tool) :=
  sortDesc (scoredTools tools (pyNorm query))

/-- The substring-fallback search, lines 119-130: truncate the ranked list
to the limit; an empty result falls back to the first limit tools. -/
def substrSearch (tools : List Tool) (query : String) (limit : Nat) : List Tool :=
  let res := ((substrRanked tools query).take limit).map Prod.snd
  if res.isEmpty then tools.take limit else res

/-- Lookup in the name-to-tool cache built at line 55 by a dict
comprehension: on duplicate names the later entry wins. -/
def toolMap (tools : List Tool) (n : String) : Option Tool :=
  tools.foldl (fun acc t => if t.name = n then some t else acc) none

/-- The vector-store capability: given a query and a count, return ranked
candidate names, or none when the query itself fails (the source catches
the exception and falls back). -/
def VectorCap : Type := String → Nat → Option (List String)

/-- Dispatcher-visible state: the registry list, the per-query active
tools, and the optional vector index (absent when construction failed). -/
structure HubState where
  allTools : List Tool
  activeTools : List Tool
  vectorStore : Option VectorCap

/-- Full search, lines 100-130: empty registry short-circuits; a healthy
vector store is tried first and its candidates are resolved against the
registry, unknown names discarded; an error or an empty resolved list
falls back to the substring search. -/
def searchTools (st : HubState) (query : String) (limit : Nat) : List Tool :=
  if st.allTools.isEmpty then []
  else
    match st.vectorStore with
    | some cap =>
      match cap query limit with
      | some names =>
        let ordered := names.filterMap (toolMap st.allTools)
        if ordered.isEmpty then substrSearch st.allTools query limit else ordered
      | none => substrSearch st.allTools query limit
    | none => substrSearch st.allTools query limit

-- Sanity checks of the string model (concrete evaluations).
example : pyNorm "  SEARCH " = "search" := by decide
example : isSubstringOf "" "abc" = true := by decide
example : isSubstringOf "read" (pyLower "Reader") = true := by decide
example : isSubstringOf "read" "file" = false := by decide

/-- The k argument of a hub request, after the int(k) conversion attempt of
line 95: absent (None), a value int() rejects with ValueError or TypeError,
or a value int() maps to the integer n. -/
inductive KArg where
  | absent
  | invalid
  | num (n : Int)

/-- Model of the clamp of lines 92-98: substitute the default for an absent
or unconvertible k, then clamp into the range from minK to maxK. -/
def clampK (k : KArg) (default : Int) : Int :=
  let value : Int :=
    match k with
    | .num n => n
    | _ => default
  max minK (min value maxK)

/-- Recognized configuration options of the engine (the two the dispatcher
reads; the remaining options configure the external index collaborator). -/
structure Settings where
  defaultSearchK : Int
  maxResultChars : Int

/-- The default settings of the source. -/
def defaultSettings : Settings :=
  { defaultSearchK := defaultSearchKConst, maxResultChars := defaultMaxResultChars }

/-- A single quote character, used in the literal error messages of the
source. -/
def squote : String := String.singleton (Char.ofNat 39)

/-- The error message of line 156 for an unknown tool name. -/
def notFoundMessage (n : String) : String :=
  "tool " ++ squote ++ n ++ squote ++ " not found"

/-- The error message of line 213 for an unrecognized action. -/
def invalidActionMessage : String :=
  "invalid action; use " ++ squote ++ "search" ++ squote ++ " or " ++ squote ++ "call" ++ squote

/-- The JSON payloads the dispatcher serializes with json.dumps; the
serialization itself is external, the constructors carry the fields. -/
inductive Response where
  | search (fetched : List String) (active : List String)
  | callError (error : String)
  | callToolError (tool : String) (error : String)
  | callOk (tool : String) (result : String)
  | invalidAction (error : String)

/-- The merge loop of lines 138-143: the set of already-active names is
computed once before the loop; each match whose name is not in that
snapshot is appended to the active list and reported as newly added. -/
def mergeNew (existingNames : List String) (acc : List Tool × List String) :
    List Tool → List Tool × List String
  | [] => acc
  | t :: ts =>
    if existingNames.contains t.name then mergeNew existingNames acc ts
    else mergeNew existingNames (acc.1 ++ [t], acc.2 ++ [t.name]) ts

/-- The search handler, lines 132-149. -/
def handleSearch (settings : Settings) (st : HubState) (query : String) (k : KArg) :
    Response × HubState :=
  let limit := (clampK k settings.defaultSearchK).toNat
  let matched := searchTools st query limit
  let existingNames := st.activeTools.map Tool.name
  let merged := mergeNew existingNames (st.activeTools, []) matched
  (Response.search merged.2 (merged.1.map Tool.name), { st with activeTools := merged.1 })

/-- The call handler, lines 151-184.  The json.loads attempt on tool_input
(parsed on success, the raw string on failure) and the usage-logging side
channel are external collaborators; the opaque capability receives the
input and the logging touches no session state. -/
def handleCall (settings : Settings) (st : HubState) (toolName toolInput : String) :
    Response × HubState :=
  match toolMap st.allTools toolName with
  | none => (Response.callError (notFoundMessage toolName), st)
  | some tool =>
    let newActive :=
      if (st.activeTools.map Tool.name).contains tool.name then st.activeTools
      else st.activeTools ++ [tool]
    let st2 : HubState := { st with activeTools := newActive }
    match tool.invoke toolInput with
    | Except.error e => (Response.callToolError tool.name e, st2)
    | Except.ok resStr =>
      (Response.callOk tool.name (pySliceTo resStr settings.maxResultChars), st2)

/-- The dispatcher routing of lines 203-213, evaluated in order: search
synonyms or an empty action with a non-empty query route to search; then
the call keyword or a supplied tool name route to call; anything else is
answered with an error payload.  The function is total: it never raises to
the caller. -/
def runHub (settings : Settings) (st : HubState) (action query : String) (k : KArg)
    (toolName toolInput : String) : Response × HubState :=
  let act := pyNorm action
  if act = "search" ∨ act = "find" ∨ act = "fetch" ∨ (act = "" ∧ query ≠ "") then
    handleSearch settings st query k
  else if act = "call" ∨ toolName ≠ "" then
    handleCall settings st toolName toolInput
  else
    (Response.invalidAction invalidActionMessage, st)

/-- One hub operation inside a query. -/
inductive HubOp where
  | search (query : String) (k : KArg)
  | call (toolName : String) (toolInput : String)

/-- State transition of one hub operation. -/
def runOp (settings : Settings) (st : HubState) : HubOp → HubState
  | .search q k => (handleSearch settings st q k).2
  | .call n i => (handleCall settings st n i).2

/-- State after a sequence of hub operations. -/
def runOps (settings : Settings) (st : HubState) (ops : List HubOp) : HubState :=
  ops.foldl (runOp settings) st

/-- The contract-violation error of line 230, raised as a Python
RuntimeError; it is an exception, structurally distinct from the runtime
tool errors, which are Response payloads returned to the agent loop. -/
inductive AlgoError where
  | processBeforeSetup

/-- Session-level state: the fields set by the constructor (lines 44-50),
set_up (lines 52-57) and tear_down (lines 247-253).  The name-to-tool
cache is recorded by the list it was built from; the embeddings handle by
whether one is held. -/
structure SessionState where
  allTools : Option (List Tool)
  toolMapBuilt : Option (List Tool)
  activeTools : Option (List Tool)
  vectorStore : Option VectorCap
  embeddingsLoaded : Bool

/-- The constructor state, lines 44-50. -/
def initSession : SessionState :=
  { allTools := none, toolMapBuilt := none, activeTools := none,
    vectorStore := none, embeddingsLoaded := false }

/-- Model of set_up, lines 52-57: store the registry, build the lookup
cache, reset the active list and attempt to build the vector index.  The
build outcome (the index, possibly absent, and whether the embeddings
handle was obtained before a failure) is supplied by the external
collaborator. -/
def setUp (_s : SessionState) (tools : List Tool) (vectorBuildResult : Option VectorCap)
    (embedOk : Bool) : SessionState :=
  { allTools := some tools, toolMapBuilt := some tools, activeTools := some [],
    vectorStore := vectorBuildResult, embeddingsLoaded := embedOk }

/-- Model of tear_down, lines 247-253: release every session field. -/
def tearDown (_s : SessionState) : SessionState :=
  { allTools := none, toolMapBuilt := none, activeTools := none,
    vectorStore := none, embeddingsLoaded := false }

/-- The guard and reset of process_query, lines 227-233: before set_up (or
after tear_down) the registry field is none and the contract violation is
raised with the state untouched; otherwise the active list is reset and
the agent loop (an external collaborator) takes over. -/
def processQuery (s : SessionState) : Except AlgoError Unit × SessionState :=
  match s.allTools with
  | none => (Except.error AlgoError.processBeforeSetup, s)
  | some _ => (Except.ok (), { s with activeTools := some [] })

-- Concrete descriptors used by the closed evaluations below.
def toolAlpha : Tool :=
  { name := "alpha", description := "first tool", invoke := fun _ => Except.ok "hello world" }

def toolBeta : Tool :=
  { name := "beta", description := "second tool", invoke := fun _ => Except.ok "ok" }

def toolBoom : Tool :=
  { name := "boom", description := "always fails", invoke := fun _ => Except.error "kaput" }

def toolPage : Tool :=
  { name := "fetchurl", description := "download page", invoke := fun _ => Except.ok "p" }

def toolPager : Tool :=
  { name := "pager", description := "scroll output", invoke := fun _ => Except.ok "q" }

/-- Two registry entries sharing one name: the open duplicate-name case of
the data model. -/
def dupA : Tool := { name := "a", description := "x", invoke := fun _ => Except.ok "" }

/-- Second entry with the duplicated name. -/
def dupB : Tool := { name := "a", description := "y", invoke := fun _ => Except.ok "" }

/-- Demo state over two distinct tools with the index absent. -/
def demoState : HubState :=
  { allTools := [toolAlpha, toolBeta], activeTools := [], vectorStore := none }

/-- Demo state over a single tool. -/
def stAlpha : HubState :=
  { allTools := [toolAlpha], activeTools := [], vectorStore := none }

/-- Demo state over the failing tool. -/
def stBoom : HubState :=
  { allTools := [toolBoom], activeTools := [], vectorStore := none }

/-- Settings with a small truncation bound, for the truncation evaluation. -/
def settingsSmall : Settings := { defaultSearchK := 8, maxResultChars := 5 }

/-- Modelled from the spec (section 4.2): keep the positive-score tools,
sorted by score descending with ties in registry order.  For scores drawn
from 1, 2, 3 the stable descending sort is exactly the concatenation of
the equal-score groups, each group in registry order. -/
def specRank (tools : List Tool) (q : String) : List (Nat × Tool) :=
  ((tools.filter (fun t => scoreTool q t == 3)).map (fun t => (3, t)))
    ++ ((tools.filter (fun t => scoreTool q t == 2)).map (fun t => (2, t)))
    ++ ((tools.filter (fun t => scoreTool q t == 1)).map (fun t => (1, t)))

lemma contains_mem (l : List String) (n : String) : l.contains n = true ↔ n ∈ l :=
  List.elem_iff

lemma scoreTool_le_three (q : String) (t : Tool) : scoreTool q t ≤ 3 := by
  unfold scoreTool nameMatchWeight descMatchWeight
  split <;> split <;> omega

lemma scored_bounds (tools : List Tool) (q : String) :
    ∀ p ∈ scoredTools tools q, 0 < p.1 ∧ p.1 ≤ 3 := by
  intro p hp
  rcases List.mem_filterMap.mp hp with ⟨t, _ht, hf⟩
  by_cases hpos : 0 < scoreTool q t
  · rw [if_pos hpos] at hf
    cases hf
    exact ⟨hpos, scoreTool_le_three q t⟩
  · rw [if_neg hpos] at hf
    cases hf

lemma insertDesc_front (x : Nat × Tool) (B : List (Nat × Tool))
    (hB : ∀ y ∈ B, y.1 ≤ x.1) : insertDesc x B = x :: B := by
  cases B with
  | nil => rfl
  | cons y ys =>
    have hy : ¬ x.1 < y.1 := not_lt.mpr (hB y (List.mem_cons_self y ys))
    rw [insertDesc, if_neg hy]

lemma insertDesc_append (x : Nat × Tool) (A B : List (Nat × Tool))
    (hA : ∀ y ∈ A, x.1 < y.1) (hB : ∀ y ∈ B, y.1 ≤ x.1) :
    insertDesc x (A ++ B) = A ++ x :: B := by
  induction A with
  | nil => simpa using insertDesc_front x B hB
  | cons a A ih =>
    have hxa : x.1 < a.1 := hA a (List.mem_cons_self a A)
    rw [List.cons_append, insertDesc, if_pos hxa,
      ih (fun y hy => hA y (List.mem_cons_of_mem a hy))]
    rfl

lemma sortDesc_partition (l : List (Nat × Tool)) (h : ∀ p ∈ l, 0 < p.1 ∧ p.1 ≤ 3) :
    sortDesc l = l.filter (fun p => p.1 == 3) ++ l.filter (fun p => p.1 == 2)
      ++ l.filter (fun p => p.1 == 1) := by
  induction l with
  | nil => rfl
  | cons p l ih =>
    have hp := h p (List.mem_cons_self p l)
    have hl : ∀ q ∈ l, 0 < q.1 ∧ q.1 ≤ 3 := fun q hq => h q (List.mem_cons_of_mem p hq)
    have step : sortDesc (p :: l) = insertDesc p (sortDesc l) := rfl
    have hmem : ∀ s : Nat, ∀ y ∈ l.filter (fun p => p.1 == s), y.1 = s := by
      intro s y hy
      have hf := (List.mem_filter.mp hy).2
      simpa using hf
    have hval : p.1 = 1 ∨ p.1 = 2 ∨ p.1 = 3 := by omega
    rw [step, ih hl]
    rcases hval with h1 | h2 | h3
    · rw [insertDesc_append p (l.filter (fun p => p.1 == 3) ++ l.filter (fun p => p.1 == 2))
          (l.filter (fun p => p.1 == 1))
          (by
            intro y hy
            rcases List.mem_append.mp hy with hy3 | hy2
            · have := hmem 3 y hy3; omega
            · have := hmem 2 y hy2; omega)
          (by intro y hy; have := hmem 1 y hy; omega)]
      have e3 : (p :: l).filter (fun p => p.1 == 3) = l.filter (fun p => p.1 == 3) := by
        rw [List.filter_cons_of_neg (by simp [h1])]
      have e2 : (p :: l).filter (fun p => p.1 == 2) = l.filter (fun p => p.1 == 2) := by
        rw [List.filter_cons_of_neg (by simp [h1])]
      have e1 : (p :: l).filter (fun p => p.1 == 1) = p :: l.filter (fun p => p.1 == 1) := by
        rw [List.filter_cons_of_pos (by simp [h1])]
      rw [e3, e2, e1]
    · rw [List.append_assoc,
        insertDesc_append p (l.filter (fun p => p.1 == 3))
          (l.filter (fun p => p.1 == 2) ++ l.filter (fun p => p.1 == 1))
          (by intro y hy; have := hmem 3 y hy; omega)
          (by
            intro y hy
            rcases List.mem_append.mp hy with hy2 | hy1
            · have := hmem 2 y hy2; omega
            · have := hmem 1 y hy1; omega)]
      have e3 : (p :: l).filter (fun p => p.1 == 3) = l.filter (fun p => p.1 == 3) := by
        rw [List.filter_cons_of_neg (by simp [h2])]
      have e2 : (p :: l).filter (fun p => p.1 == 2) = p :: l.filter (fun p => p.1 == 2) := by
        rw [List.filter_cons_of_pos (by simp [h2])]
      have e1 : (p :: l).filter (fun p => p.1 == 1) = l.filter (fun p => p.1 == 1) := by
        rw [List.filter_cons_of_neg (by simp [h2])]
      rw [e3, e2, e1]
      simp
    · rw [insertDesc_front p
          (l.filter (fun p => p.1 == 3) ++ l.filter (fun p => p.1 == 2)
            ++ l.filter (fun p => p.1 == 1))
          (by
            intro y hy
            rcases List.mem_append.mp hy with hy' | hy1
            · rcases List.mem_append.mp hy' with hy3 | hy2
              · have := hmem 3 y hy3; omega
              · have := hmem 2 y hy2; omega
            · have := hmem 1 y hy1; omega)]
      have e3 : (p :: l).filter (fun p => p.1 == 3) = p :: l.filter (fun p => p.1 == 3) := by
        rw [List.filter_cons_of_pos (by simp [h3])]
      have e2 : (p :: l).filter (fun p => p.1 == 2) = l.filter (fun p => p.1 == 2) := by
        rw [List.filter_cons_of_neg (by simp [h3])]
      have e1 : (p :: l).filter (fun p => p.1 == 1) = l.filter (fun p => p.1 == 1) := by
        rw [List.filter_cons_of_neg (by simp [h3])]
      rw [e3, e2, e1]
      simp

lemma scored_filter (tools : List Tool) (q : String) (s : Nat) (hs : 0 < s) :
    (scoredTools tools q).filter (fun p => p.1 == s)
      = (tools.filter (fun t => scoreTool q t == s)).map (fun t => (s, t)) := by
  induction tools with
  | nil => rfl
  | cons t ts ih =>
    by_cases hpos : 0 < scoreTool q t
    · have hcons : scoredTools (t :: ts) q = (scoreTool q t, t) :: scoredTools ts q := by
        simp [scoredTools, List.filterMap_cons, hpos]
      by_cases heq : scoreTool q t = s
      · rw [hcons, List.filter_cons_of_pos (by simp [heq]),
          List.filter_cons_of_pos (by simp [heq]), ih]
        simp [heq]
      · rw [hcons, List.filter_cons_of_neg (by simp [heq]),
          List.filter_cons_of_neg (by simp [heq]), ih]
    · have hne : ¬ scoreTool q t = s := by omega
      have hcons : scoredTools (t :: ts) q = scoredTools ts q := by
        simp [scoredTools, List.filterMap_cons, hpos]
      rw [hcons, List.filter_cons_of_neg (by simp [hne]), ih]

lemma substrRanked_eq_specRank (tools : List Tool) (query : String) :
    substrRanked tools query = specRank tools (pyNorm query) := by
  unfold substrRanked specRank
  rw [sortDesc_partition _ (scored_bounds tools (pyNorm query)),
    scored_filter tools (pyNorm query) 3 (by omega),
    scored_filter tools (pyNorm query) 2 (by omega),
    scored_filter tools (pyNorm query) 1 (by omega)]

lemma part_pairwise (l : List Tool) (s : Nat) :
    (l.map (fun t => ((s, t) : Nat × Tool))).Pairwise (fun a b => b.1 ≤ a.1) := by
  rw [List.pairwise_map]
  exact List.pairwise_of_forall (fun _ _ => le_refl s)

lemma part_fst (l : List Tool) (s : Nat) :
    ∀ y ∈ l.map (fun t => ((s, t) : Nat × Tool)), y.1 = s := by
  intro y hy
  rcases List.mem_map.mp hy with ⟨t, _, rfl⟩
  rfl

lemma specRank_pairwise (tools : List Tool) (q : String) :
    (specRank tools q).Pairwise (fun a b => b.1 ≤ a.1) := by
  unfold specRank
  rw [List.pairwise_append]
  refine ⟨?_, ?_, ?_⟩
  · rw [List.pairwise_append]
    refine ⟨part_pairwise _ 3, part_pairwise _ 2, ?_⟩
    intro a ha b hb
    rw [part_fst _ 3 a ha, part_fst _ 2 b hb]
    omega
  · exact part_pairwise _ 1
  · intro a ha b hb
    have hb1 := part_fst _ 1 b hb
    rcases List.mem_append.mp ha with ha3 | ha2
    · rw [part_fst _ 3 a ha3, hb1]; omega
    · rw [part_fst _ 2 a ha2, hb1]; omega

lemma substrRanked_pairwise (tools : List Tool) (query : String) :
    (substrRanked tools query).Pairwise (fun a b => b.1 ≤ a.1) := by
  rw [substrRanked_eq_specRank]
  exact specRank_pairwise tools (pyNorm query)

lemma isSubstringOf_empty (s : String) : isSubstringOf "" s = true := by
  apply List.any_eq_true.mpr
  refine ⟨0, List.mem_range.mpr (by omega), ?_⟩
  have h : ("" : String).data = [] := rfl
  rw [h]
  exact List.isPrefixOf_nil_left

lemma scoreTool_empty (t : Tool) : scoreTool "" t = 3 := by
  unfold scoreTool
  rw [if_pos (isSubstringOf_empty (pyLower t.name)),
    if_pos (isSubstringOf_empty (pyLower t.description))]
  decide

lemma scoredTools_empty (tools : List Tool) :
    scoredTools tools "" = tools.map (fun t => (3, t)) := by
  induction tools with
  | nil => rfl
  | cons t ts ih =>
    have h3 := scoreTool_empty t
    simp only [scoredTools, List.filterMap_cons] at ih ⊢
    rw [h3]
    simp only [if_pos (by omega : (0:Nat) < 3)]
    rw [ih]
    rfl

lemma sortDesc_uniform (tools : List Tool) :
    sortDesc (tools.map (fun t => (3, t))) = tools.map (fun t => (3, t)) := by
  induction tools with
  | nil => rfl
  | cons t ts ih =>
    have step : sortDesc ((t :: ts).map (fun t => (3, t)))
        = insertDesc (3, t) (sortDesc (ts.map (fun t => (3, t)))) := rfl
    rw [step, ih, insertDesc_front _ _ (by
      intro y hy
      rw [part_fst ts 3 y hy])]
    rfl

lemma substrSearch_empty_query (tools : List Tool) (query : String) (limit : Nat)
    (h : pyNorm query = "") : substrSearch tools query limit = tools.take limit := by
  unfold substrSearch substrRanked
  rw [h, scoredTools_empty, sortDesc_uniform, ← List.map_take, List.map_map]
  have hmap : ((tools.take limit).map ((fun p => Prod.snd p) ∘ (fun t => ((3, t) : Nat × Tool))))
      = tools.take limit := by
    simp
  rw [hmap]
  exact ite_self (tools.take limit)

lemma take_ne_nil (l : List Tool) (n : Nat) (h1 : l ≠ []) (h2 : 1 ≤ n) :
    l.take n ≠ [] := by
  cases l with
  | nil => exact absurd rfl h1
  | cons a l =>
    cases n with
    | zero => omega
    | succ m => simp

lemma substrSearch_eq (tools : List Tool) (query : String) (limit : Nat) :
    substrSearch tools query limit =
      (if (((substrRanked tools query).take limit).map Prod.snd).isEmpty
        then tools.take limit
        else ((substrRanked tools query).take limit).map Prod.snd) := rfl

/-- C2: the lexical fallback scorer keeps exactly the positive-score tools
(2 for a name hit plus 1 for a description hit, computed on the normalized
query), sorts them by score descending with ties in registry order, and
truncates to the limit.  The first conjunct equates the ranked list of the
code with the spec-side stable descending sort; the second and third state
descending order and that a strictly higher score always comes strictly
earlier, hence a name-only match (score 2) outranks a description-only
match (score 1); the last restates the truncation against the spec-side
ranking. -/
theorem lexical_scorer_stable_ranking (tools : List Tool) (query : String) (limit : Nat) :
    substrRanked tools query = specRank tools (pyNorm query)
    ∧ (substrRanked tools query).Pairwise (fun a b => b.1 ≤ a.1)
    ∧ (∀ (i j : Nat) (pa pb : Nat × Tool),
        (substrRanked tools query)[i]? = some pa →
        (substrRanked tools query)[j]? = some pb →
        pa.1 < pb.1 → j < i)
    ∧ substrSearch tools query limit =
        (if (((specRank tools (pyNorm query)).take limit).map Prod.snd).isEmpty
          then tools.take limit
          else ((specRank tools (pyNorm query)).take limit).map Prod.snd) := by
  refine ⟨substrRanked_eq_specRank tools query, substrRanked_pairwise tools query, ?_, ?_⟩
  · intro i j pa pb hi hj hlt
    rcases List.getElem?_eq_some_iff.mp hi with ⟨hilen, hie⟩
    rcases List.getElem?_eq_some_iff.mp hj with ⟨hjlen, hje⟩
    by_contra hcon
    push_neg at hcon
    rcases Nat.lt_or_ge i j with hij | hij
    · have hP := (List.pairwise_iff_getElem.mp (substrRanked_pairwise tools query))
        i j hilen hjlen hij
      rw [hie, hje] at hP
      omega
    · have hij2 : i = j := by omega
      subst hij2
      rw [hie] at hje
      rw [hje] at hlt
      omega
  · rw [substrSearch_eq, substrRanked_eq_specRank]

/-- C2 witness: on the query page, the name-only tool pager (score 2,
second in the registry) strictly outranks the description-only tool
fetchurl (score 1, first in the registry). -/
theorem lexical_scorer_stable_ranking_witness :
    (substrRanked [toolPage, toolPager] "page")[1]? = some (1, toolPage)
    ∧ (substrRanked [toolPage, toolPager] "page")[0]? = some (2, toolPager)
    ∧ 0 < 1 := by
  refine ⟨rfl, rfl, ?_⟩
  exact (lexical_scorer_stable_ranking [toolPage, toolPager] "page" 5).2.2.1
    1 0 (1, toolPage) (2, toolPager) rfl rfl (by omega)

/-- C3 counterexample: the claim asserts the ranked list is empty for the
empty query, but the empty string is a substring of every name and
description, so on a one-tool registry the empty query produces a ranked
list of length one with score 3. -/
theorem empty_query_ranked_nonempty_cex :
    (substrRanked [toolAlpha] "").length = 1
    ∧ (substrRanked [toolAlpha] "").map Prod.fst = [3] := by
  exact ⟨by decide, by decide⟩

/-- C3 amended: whenever the ranked list is empty the fallback returns the
first limit registry tools; the empty query instead scores every tool
positively, yet by sort stability the result is again the first limit
tools in registry order; and with the vector index absent a search over a
non-empty registry never returns an empty list. -/
theorem lexical_fallback_first_tools (tools : List Tool) (query : String) (limit : Nat)
    (st : HubState) :
    (substrRanked tools query = [] → substrSearch tools query limit = tools.take limit)
    ∧ (pyNorm query = "" → substrSearch tools query limit = tools.take limit)
    ∧ (st.vectorStore = none → st.allTools ≠ [] → 1 ≤ limit →
        searchTools st query limit ≠ []) := by
  refine ⟨?_, substrSearch_empty_query tools query limit, ?_⟩
  · intro h
    rw [substrSearch_eq, h]
    simp
  · intro hvec hne hlim
    unfold searchTools
    rw [hvec, if_neg (by simpa using hne)]
    show substrSearch st.allTools query limit ≠ []
    rw [substrSearch_eq]
    by_cases he : (((substrRanked st.allTools query).take limit).map Prod.snd).isEmpty
    · rw [if_pos he]
      exact take_ne_nil _ _ hne hlim
    · rw [if_neg he]
      simpa using he

/-- C3 witness: with the index absent and two registered tools, a search
for a query matching nothing still returns a non-empty list. -/
theorem lexical_fallback_first_tools_witness :
    demoState.vectorStore = none ∧ demoState.allTools ≠ [] ∧ 1 ≤ 2
    ∧ searchTools demoState "zzz" 2 ≠ [] := by
  refine ⟨rfl, by simp [demoState], by omega, ?_⟩
  exact (lexical_fallback_first_tools demoState.allTools "zzz" 2 demoState).2.2
    rfl (by simp [demoState]) (by omega)

lemma mergeNew_eq (ex : List String) (acc : List Tool × List String) (ms : List Tool) :
    mergeNew ex acc ms
      = (acc.1 ++ ms.filter (fun t => !(ex.contains t.name)),
         acc.2 ++ (ms.filter (fun t => !(ex.contains t.name))).map Tool.name) := by
  induction ms generalizing acc with
  | nil => simp [mergeNew]
  | cons t ts ih =>
    by_cases h : ex.contains t.name
    · rw [mergeNew, if_pos h, ih, List.filter_cons_of_neg (by simpa using h)]
    · rw [mergeNew, if_neg h, ih, List.filter_cons_of_pos (by simpa using h)]
      simp

/-- The tools a search appends to the active list: the matched tools whose
names were not active before the call. -/
def newlyFetched (settings : Settings) (st : HubState) (q : String) (k : KArg) : List Tool :=
  (searchTools st q ((clampK k settings.defaultSearchK).toNat)).filter
    (fun t => !((st.activeTools.map Tool.name).contains t.name))

lemma handleSearch_eq (settings : Settings) (st : HubState) (q : String) (k : KArg) :
    handleSearch settings st q k
      = (Response.search ((newlyFetched settings st q k).map Tool.name)
          ((st.activeTools ++ newlyFetched settings st q k).map Tool.name),
         { st with activeTools := st.activeTools ++ newlyFetched settings st q k }) := by
  simp only [handleSearch, newlyFetched, mergeNew_eq, List.nil_append]

lemma insertDesc_perm (x : Nat × Tool) (l : List (Nat × Tool)) :
    (insertDesc x l).Perm (x :: l) := by
  induction l with
  | nil => exact List.Perm.refl _
  | cons y ys ih =>
    by_cases h : x.1 < y.1
    · rw [insertDesc, if_pos h]
      exact (ih.cons y).trans (List.Perm.swap x y ys)
    · rw [insertDesc, if_neg h]

lemma sortDesc_perm (l : List (Nat × Tool)) : (sortDesc l).Perm l := by
  induction l with
  | nil => exact List.Perm.refl _
  | cons p l ih =>
    have step : sortDesc (p :: l) = insertDesc p (sortDesc l) := rfl
    rw [step]
    exact (insertDesc_perm p (sortDesc l)).trans (ih.cons p)

lemma scored_snd_sublist (tools : List Tool) (q : String) :
    List.Sublist ((scoredTools tools q).map Prod.snd) tools := by
  induction tools with
  | nil => exact List.Sublist.refl []
  | cons t ts ih =>
    by_cases hpos : 0 < scoreTool q t
    · have hc : scoredTools (t :: ts) q = (scoreTool q t, t) :: scoredTools ts q := by
        simp [scoredTools, List.filterMap_cons, hpos]
      rw [hc, List.map_cons]
      exact ih.cons₂ t
    · have hc : scoredTools (t :: ts) q = scoredTools ts q := by
        simp [scoredTools, List.filterMap_cons, hpos]
      rw [hc]
      exact ih.cons t

lemma substrSearch_names_nodup (tools : List Tool) (q : String) (limit : Nat)
    (h : (tools.map Tool.name).Nodup) :
    ((substrSearch tools q limit).map Tool.name).Nodup := by
  rw [substrSearch_eq]
  by_cases he : (((substrRanked tools q).take limit).map Prod.snd).isEmpty
  · rw [if_pos he]
    exact h.sublist ((List.take_sublist limit tools).map Tool.name)
  · rw [if_neg he]
    have hscored : (((scoredTools tools (pyNorm q)).map Prod.snd).map Tool.name).Nodup :=
      h.sublist ((scored_snd_sublist tools (pyNorm q)).map Tool.name)
    have hperm : (((substrRanked tools q).map Prod.snd).map Tool.name).Perm
        (((scoredTools tools (pyNorm q)).map Prod.snd).map Tool.name) :=
      ((sortDesc_perm (scoredTools tools (pyNorm q))).map Prod.snd).map Tool.name
    have hranked : (((substrRanked tools q).map Prod.snd).map Tool.name).Nodup :=
      (hperm.nodup_iff).mpr hscored
    exact hranked.sublist (((List.take_sublist limit _).map Prod.snd).map Tool.name)

lemma searchTools_names_nodup (st : HubState) (q : String) (limit : Nat)
    (hvec : st.vectorStore = none) (h : (st.allTools.map Tool.name).Nodup) :
    ((searchTools st q limit).map Tool.name).Nodup := by
  unfold searchTools
  rw [hvec]
  by_cases he : st.allTools.isEmpty
  · rw [if_pos he]
    simp
  · rw [if_neg he]
    show ((substrSearch st.allTools q limit).map Tool.name).Nodup
    exact substrSearch_names_nodup _ _ _ h

lemma handleCall_none (settings : Settings) (st : HubState) (n i : String)
    (htm : toolMap st.allTools n = none) :
    handleCall settings st n i = (Response.callError (notFoundMessage n), st) := by
  simp only [handleCall, htm]

lemma handleCall_snd_some (settings : Settings) (st : HubState) (n i : String) (tool : Tool)
    (htm : toolMap st.allTools n = some tool) :
    (handleCall settings st n i).2
      = { st with activeTools :=
            if (st.activeTools.map Tool.name).contains tool.name then st.activeTools
            else st.activeTools ++ [tool] } := by
  simp only [handleCall, htm]
  rcases hinv : tool.invoke i with e | r <;> simp [hinv]

/-- Invariant of a query session: the registry and index fields are fixed
and the active names carry no duplicate. -/
def StInv (tools : List Tool) (st : HubState) : Prop :=
  st.allTools = tools ∧ st.vectorStore = none ∧ (st.activeTools.map Tool.name).Nodup

lemma runOp_preserves (settings : Settings) (tools : List Tool)
    (hreg : (tools.map Tool.name).Nodup) (st : HubState) (op : HubOp)
    (h : StInv tools st) : StInv tools (runOp settings st op) := by
  rcases h with ⟨hall, hvec, hnd⟩
  cases op with
  | search q k =>
    show StInv tools (handleSearch settings st q k).2
    rw [handleSearch_eq]
    refine ⟨hall, hvec, ?_⟩
    rw [List.map_append]
    refine List.nodup_append.mpr ⟨hnd, ?_, ?_⟩
    · have hmatched : ((searchTools st q
          ((clampK k settings.defaultSearchK).toNat)).map Tool.name).Nodup :=
        searchTools_names_nodup st q _ hvec (by rw [hall]; exact hreg)
      exact hmatched.sublist ((List.filter_sublist _).map Tool.name)
    · intro a ha hb
      rcases List.mem_map.mp hb with ⟨t, ht, rfl⟩
      have hpred := (List.mem_filter.mp ht).2
      have hnotin : t.name ∉ st.activeTools.map Tool.name := by simpa using hpred
      exact hnotin ha
  | call n i =>
    show StInv tools (handleCall settings st n i).2
    rcases htm : toolMap st.allTools n with _ | tool
    · rw [handleCall_none settings st n i htm]
      exact ⟨hall, hvec, hnd⟩
    · rw [handleCall_snd_some settings st n i tool htm]
      by_cases hmem : (st.activeTools.map Tool.name).contains tool.name
      · rw [if_pos hmem]
        exact ⟨hall, hvec, hnd⟩
      · rw [if_neg hmem]
        refine ⟨hall, hvec, ?_⟩
        rw [List.map_append]
        refine List.nodup_append.mpr ⟨hnd, by simp, ?_⟩
        intro a ha hb
        have hb2 : a = tool.name := by simpa using hb
        subst hb2
        exact (by simpa using hmem : tool.name ∉ st.activeTools.map Tool.name) ha

lemma runOps_preserves (settings : Settings) (tools : List Tool)
    (hreg : (tools.map Tool.name).Nodup) (ops : List HubOp) (st : HubState)
    (h : StInv tools st) : StInv tools (runOps settings st ops) := by
  induction ops generalizing st with
  | nil => exact h
  | cons op ops ih => exact ih _ (runOp_preserves settings tools hreg st op h)

lemma runOp_growth (settings : Settings) (st : HubState) (op : HubOp) :
    ∃ δ, (runOp settings st op).activeTools = st.activeTools ++ δ := by
  cases op with
  | search q k =>
    exact ⟨newlyFetched settings st q k, by rw [runOp, handleSearch_eq]⟩
  | call n i =>
    rcases htm : toolMap st.allTools n with _ | tool
    · refine ⟨[], ?_⟩
      rw [runOp, handleCall_none settings st n i htm]
      simp
    · by_cases hmem : (st.activeTools.map Tool.name).contains tool.name
      · refine ⟨[], ?_⟩
        rw [runOp, handleCall_snd_some settings st n i tool htm, if_pos hmem]
        simp
      · refine ⟨[tool], ?_⟩
        rw [runOp, handleCall_snd_some settings st n i tool htm, if_neg hmem]

/-- C5 amended: provided the registry names are unique and the index is
absent (so every matched list has duplicate-free names), the active set
never holds a name twice, every operation only appends to it (first-seen
order), and the fetched field of a search response lists exactly the
matched tool names that were not active before the call, the active field
the names after the merge. -/
theorem active_set_unique_first_seen (settings : Settings) (tools : List Tool)
    (hreg : (tools.map Tool.name).Nodup) (ops : List HubOp) :
    (((runOps settings { allTools := tools, activeTools := [], vectorStore := none }
        ops).activeTools.map Tool.name).Nodup)
    ∧ (∀ (st : HubState) (op : HubOp),
        ∃ δ, (runOp settings st op).activeTools = st.activeTools ++ δ)
    ∧ (∀ (st : HubState) (q : String) (kk : KArg),
        (handleSearch settings st q kk).1
          = Response.search ((newlyFetched settings st q kk).map Tool.name)
              ((handleSearch settings st q kk).2.activeTools.map Tool.name)) := by
  refine ⟨?_, fun st op => runOp_growth settings st op, ?_⟩
  · exact (runOps_preserves settings tools hreg ops _ ⟨rfl, rfl, by simp⟩).2.2
  · intro st q kk
    rw [handleSearch_eq]

/-- C5 witness: on a registry with distinct names, a search, a call and a
repeated search leave the active names duplicate-free. -/
theorem active_set_unique_first_seen_witness :
    (([toolAlpha, toolBeta].map Tool.name).Nodup)
    ∧ (((runOps defaultSettings
        { allTools := [toolAlpha, toolBeta], activeTools := [], vectorStore := none }
        [HubOp.search "alpha" KArg.absent, HubOp.call "alpha" "",
          HubOp.search "alpha" KArg.absent]).activeTools.map Tool.name).Nodup) := by
  exact ⟨by decide,
    (active_set_unique_first_seen defaultSettings [toolAlpha, toolBeta] (by decide) _).1⟩

/-- C5 counterexample: the merge loop freezes the set of already-active
names before iterating, so two registry entries sharing one name are both
appended by a single search and the active set reports the name twice. -/
theorem duplicate_registry_active_dup_cex :
    ((((handleSearch defaultSettings
        { allTools := [dupA, dupB], activeTools := [], vectorStore := none }
        "a" KArg.absent).2).activeTools.map Tool.name) = ["a", "a"])
    ∧ ¬ ((((handleSearch defaultSettings
        { allTools := [dupA, dupB], activeTools := [], vectorStore := none }
        "a" KArg.absent).2).activeTools.map Tool.name).Nodup) := by
  exact ⟨by decide, by decide⟩

/-- C1: the dispatcher evaluates its routing rules in order on the
lowercased, whitespace-stripped action: a search synonym, or an empty
action with a non-empty query, is handled as a search; otherwise the call
keyword or a supplied tool name is handled as a call; otherwise an error
payload is returned with the state unchanged.  The dispatcher is a total
function, so it never raises to the caller. -/
theorem dispatcher_routing_order (settings : Settings) (st : HubState)
    (action query : String) (k : KArg) (toolName toolInput : String) :
    ((pyNorm action = "search" ∨ pyNorm action = "find" ∨ pyNorm action = "fetch"
        ∨ (pyNorm action = "" ∧ query ≠ "")) →
      runHub settings st action query k toolName toolInput
        = handleSearch settings st query k)
    ∧ (¬ (pyNorm action = "search" ∨ pyNorm action = "find" ∨ pyNorm action = "fetch"
        ∨ (pyNorm action = "" ∧ query ≠ "")) →
      (pyNorm action = "call" ∨ toolName ≠ "") →
      runHub settings st action query k toolName toolInput
        = handleCall settings st toolName toolInput)
    ∧ (¬ (pyNorm action = "search" ∨ pyNorm action = "find" ∨ pyNorm action = "fetch"
        ∨ (pyNorm action = "" ∧ query ≠ "")) →
      ¬ (pyNorm action = "call" ∨ toolName ≠ "") →
      runHub settings st action query k toolName toolInput
        = (Response.invalidAction invalidActionMessage, st)) := by
  refine ⟨?_, ?_, ?_⟩
  · intro h1
    simp only [runHub]
    rw [if_pos h1]
  · intro h1 h2
    simp only [runHub]
    rw [if_neg h1, if_pos h2]
  · intro h1 h2
    simp only [runHub]
    rw [if_neg h1, if_neg h2]

/-- C1 witness: an action with surrounding whitespace and upper case
normalizes to the search synonym and is routed to the search handler. -/
theorem dispatcher_routing_order_witness :
    pyNorm " SEARCH" = "search"
    ∧ runHub defaultSettings demoState " SEARCH" "x" KArg.absent "" ""
        = handleSearch defaultSettings demoState "x" KArg.absent := by
  refine ⟨by decide, ?_⟩
  exact (dispatcher_routing_order defaultSettings demoState " SEARCH" "x" KArg.absent "" "").1
    (Or.inl (by decide))

/-- C4: a supplied integer k outside the valid range is clamped into it,
an in-range integer k is used as given, and an absent or unconvertible k
falls back to the configured default (which the configuration surface
constrains to the valid range). -/
theorem effective_limit_clamp (n d : Int) (hd1 : 1 ≤ d) (hd2 : d ≤ 50) :
    ((n < 1 ∨ 50 < n) → clampK (KArg.num n) d = max 1 (min n 50))
    ∧ (1 ≤ n → n ≤ 50 → clampK (KArg.num n) d = n)
    ∧ clampK KArg.absent d = d
    ∧ clampK KArg.invalid d = d := by
  simp only [clampK, minK, maxK]
  refine ⟨fun _ => by trivial, fun h1 h2 => by omega, by omega, by omega⟩

/-- C4 witness: 100 clamps to 50, an absent k uses the default 8, and the
in-range value 7 passes through. -/
theorem effective_limit_clamp_witness :
    (1 : Int) ≤ 8 ∧ (8 : Int) ≤ 50
    ∧ ((100 : Int) < 1 ∨ (50 : Int) < 100)
    ∧ clampK (KArg.num 100) 8 = max 1 (min 100 50)
    ∧ clampK KArg.absent 8 = 8
    ∧ clampK (KArg.num 7) 8 = 7 := by
  refine ⟨by decide, by decide, Or.inr (by decide), ?_, ?_, ?_⟩
  · exact (effective_limit_clamp 100 8 (by decide) (by decide)).1 (Or.inr (by decide))
  · exact (effective_limit_clamp 100 8 (by decide) (by decide)).2.2.1
  · exact (effective_limit_clamp 7 8 (by decide) (by decide)).2.1 (by decide) (by decide)

/-- C10: whatever k and whatever the configured default, the effective
limit lies in the valid range: the clamp is applied after the default is
substituted, so an out-of-range default is itself clamped. -/
theorem effective_limit_always_in_range (k : KArg) (d : Int) :
    1 ≤ clampK k d ∧ clampK k d ≤ 50
    ∧ clampK KArg.absent d = max 1 (min d 50)
    ∧ clampK KArg.invalid d = max 1 (min d 50) := by
  rcases k <;> simp only [clampK, minK, maxK] <;>
    refine ⟨by omega, by omega, by trivial, by trivial⟩

/-- C6: a call naming an unregistered tool answers with exactly the
not-found error payload and leaves the whole state unchanged, both at the
call handler and through the dispatcher routing. -/
theorem unknown_tool_error_payload (settings : Settings) (st : HubState)
    (action query toolName toolInput : String) (k : KArg)
    (hmap : toolMap st.allTools toolName = none) (hact : pyNorm action = "call") :
    handleCall settings st toolName toolInput
        = (Response.callError (notFoundMessage toolName), st)
    ∧ runHub settings st action query k toolName toolInput
        = (Response.callError (notFoundMessage toolName), st) := by
  have h1 := handleCall_none settings st toolName toolInput hmap
  refine ⟨h1, ?_⟩
  have hc1 : ¬ (pyNorm action = "search" ∨ pyNorm action = "find" ∨ pyNorm action = "fetch"
      ∨ (pyNorm action = "" ∧ query ≠ "")) := by
    intro hcon
    rcases hcon with h | h | h | ⟨h, _⟩ <;> rw [hact] at h <;> exact absurd h (by decide)
  simp only [runHub]
  rw [if_neg hc1, if_pos (Or.inl hact), h1]

/-- C6 witness: calling the unregistered name zeta on a one-tool registry
returns the not-found payload with the state unchanged. -/
theorem unknown_tool_error_payload_witness :
    toolMap stAlpha.allTools "zeta" = none
    ∧ pyNorm "call" = "call"
    ∧ handleCall defaultSettings stAlpha "zeta" ""
        = (Response.callError (notFoundMessage "zeta"), stAlpha) := by
  refine ⟨rfl, by decide, ?_⟩
  exact (unknown_tool_error_payload defaultSettings stAlpha "call" "" "zeta" ""
    KArg.absent rfl (by decide)).1

lemma strLen_strTake (s : String) (n : Nat) : strLen (strTake s n) = min n (strLen s) := by
  simp [strLen, strTake, List.length_take]

/-- C7: the result string of a successful call is embedded truncated to
the first maxResultChars characters; a result no longer than the bound is
embedded unchanged, a longer one is cut to exactly the bound. -/
theorem result_truncation_exact (settings : Settings) (st : HubState)
    (toolName toolInput : String) (tool : Tool) (resStr : String)
    (hmap : toolMap st.allTools toolName = some tool)
    (hinv : tool.invoke toolInput = Except.ok resStr)
    (hmc : 0 ≤ settings.maxResultChars) :
    (handleCall settings st toolName toolInput).1
        = Response.callOk tool.name (pySliceTo resStr settings.maxResultChars)
    ∧ (settings.maxResultChars.toNat < strLen resStr →
        strLen (pySliceTo resStr settings.maxResultChars) = settings.maxResultChars.toNat
        ∧ pySliceTo resStr settings.maxResultChars
            = strTake resStr settings.maxResultChars.toNat)
    ∧ (strLen resStr ≤ settings.maxResultChars.toNat →
        pySliceTo resStr settings.maxResultChars = resStr) := by
  have hslice : pySliceTo resStr settings.maxResultChars
      = strTake resStr settings.maxResultChars.toNat := by
    unfold pySliceTo
    rw [if_pos hmc]
  refine ⟨?_, ?_, ?_⟩
  · simp only [handleCall, hmap, hinv]
  · intro hlt
    rw [hslice, strLen_strTake]
    exact ⟨by omega, rfl⟩
  · intro hle
    rw [hslice]
    unfold strTake
    rw [List.take_of_length_le (by simpa [strLen] using hle)]

/-- C7 witness: a five-character bound cuts the eleven-character result
hello world embedded in the call response. -/
theorem result_truncation_exact_witness :
    toolMap stAlpha.allTools "alpha" = some toolAlpha
    ∧ toolAlpha.invoke "x" = Except.ok "hello world"
    ∧ (0 : Int) ≤ settingsSmall.maxResultChars
    ∧ (handleCall settingsSmall stAlpha "alpha" "x").1
        = Response.callOk toolAlpha.name (pySliceTo "hello world" settingsSmall.maxResultChars) := by
  refine ⟨rfl, rfl, by decide, ?_⟩
  exact (result_truncation_exact settingsSmall stAlpha "alpha" "x" toolAlpha
    "hello world" rfl rfl (by decide)).1

/-- C8: query processing invoked with no registry stored (before set_up,
or after tear_down) reports the contract violation, an error distinct by
construction from the Response payloads of runtime tool errors, and
leaves the session state untouched; after a set_up it never reports it. -/
theorem setup_contract_guard (s : SessionState) (tools : List Tool)
    (vec : Option VectorCap) (embedOk : Bool) :
    (s.allTools = none →
      processQuery s = (Except.error AlgoError.processBeforeSetup, s))
    ∧ (processQuery (setUp s tools vec embedOk)).1 = Except.ok ()
    ∧ processQuery (tearDown s) = (Except.error AlgoError.processBeforeSetup, tearDown s) := by
  refine ⟨?_, ?_, ?_⟩
  · intro h
    simp only [processQuery, h]
  · simp only [processQuery, setUp]
  · simp only [processQuery, tearDown]

/-- C8 witness: the freshly constructed session reports the contract
violation unchanged. -/
theorem setup_contract_guard_witness :
    initSession.allTools = none
    ∧ processQuery initSession = (Except.error AlgoError.processBeforeSetup, initSession) := by
  refine ⟨rfl, ?_⟩
  exact (setup_contract_guard initSession [] none false).1 rfl

/-- C9: a call to a registered tool registers it in the active set before
invoking it, so when the invocation fails the error payload carries the
tool and message and the tool is nonetheless active afterwards. -/
theorem failed_call_still_registers_tool (settings : Settings) (st : HubState)
    (toolName toolInput : String) (tool : Tool) (e : String)
    (hmap : toolMap st.allTools toolName = some tool)
    (hinv : tool.invoke toolInput = Except.error e) :
    (handleCall settings st toolName toolInput).1 = Response.callToolError tool.name e
    ∧ tool.name ∈ ((handleCall settings st toolName toolInput).2.activeTools.map Tool.name) := by
  refine ⟨?_, ?_⟩
  · simp only [handleCall, hmap, hinv]
  · rw [handleCall_snd_some settings st toolName toolInput tool hmap]
    by_cases hmem : (st.activeTools.map Tool.name).contains tool.name
    · rw [if_pos hmem]
      exact (contains_mem _ _).mp hmem
    · rw [if_neg hmem]
      rw [List.map_append]
      exact List.mem_append.mpr (Or.inr (by simp))

/-- C9 witness: the always-failing tool boom ends in the active set even
though its invocation reports the error kaput. -/
theorem failed_call_still_registers_tool_witness :
    toolMap stBoom.allTools "boom" = some toolBoom
    ∧ toolBoom.invoke "" = Except.error "kaput"
    ∧ (handleCall defaultSettings stBoom "boom" "").1
        = Response.callToolError toolBoom.name "kaput"
    ∧ toolBoom.name ∈
        ((handleCall defaultSettings stBoom "boom" "").2.activeTools.map Tool.name) := by
  refine ⟨rfl, rfl, ?_, ?_⟩
  · exact (failed_call_still_registers_tool defaultSettings stBoom "boom" ""
      toolBoom "kaput" rfl rfl).1
  · exact (failed_call_still_registers_tool defaultSettings stBoom "boom" ""
      toolBoom "kaput" rfl rfl).2

end ToolFetcher
